import Mathlib

/-!
Shallow embedding of `src/asm_fixer.py` (the `main` function's four passes:
line classification, token aggregation, rendering, emission).

Python strings are modeled as `List Char` (`Str`).  Python dictionaries with
optionally-present keys are modeled as structures whose fields are `Option`s:
`none` means "key absent" (reading it raises `KeyError`), `some x` means the
key is present with value `x`.  Where the key may be present holding Python
`None`, the field has type `Option (Option Str)`.  Fallible steps (Python
exceptions: `KeyError`, `IndexError`, `AttributeError`) are modeled with
`Except String`.

Input lines are modeled as logical lines (no trailing newline); `str.strip()`
is modeled as stripping spaces and tabs, which coincides with Python on such
lines.
-/

deriving instance DecidableEq for Except

namespace AsmFixer

abbrev Str := List Char

/-- `c` is a whitespace character for our purposes (`[ \t]` in the source's
regexes and the whitespace stripped from logical lines). -/
def wsChar (c : Char) : Bool := c == ' ' || c == '\t'

def lstripStr (s : Str) : Str := s.dropWhile (fun c => wsChar c)

def rstripStr (s : Str) : Str := (s.reverse.dropWhile (fun c => wsChar c)).reverse

/-- Python `str.strip()` on a logical line. -/
def stripStr (s : Str) : Str := rstripStr (lstripStr s)

/-- Python `str.lower()` (ASCII content in this program). -/
def lowerStr (s : Str) : Str := s.map Char.toLower

/-- Python `str.upper()` (ASCII content in this program). -/
def upperStr (s : Str) : Str := s.map Char.toUpper

/-- Python `str.ljust k`. -/
def ljust (s : Str) (k : Nat) : Str := s ++ List.replicate (k - s.length) ' '

/-- Python `str.rjust k` where `k` may be a negative `int`
(`'; '.rjust(output_string.find(';') + 2)` can get `-1 + 2`). -/
def rjustI (s : Str) (k : Int) : Str := List.replicate (k - (s.length : Int)).toNat ' ' ++ s

/-- Python `str.find(c)`: first index of `c`, or `-1`. -/
def pyFind (c : Char) (s : Str) : Int :=
  match s.findIdx? (fun d => d == c) with
  | some i => (i : Int)
  | none => -1

/-- Python `str.rfind(' ', 0, w)`: the last index `< w` holding a space, if any. -/
def rfindSpace (s : Str) (w : Nat) : Option Nat :=
  (List.range (min w s.length)).foldl
    (fun acc i => if s.get? i == some ' ' then some i else acc) none

/-- `'\t'` expanded to `tab_size` spaces
(`indent.replace('\t', ' ' * config['tab_size'])`). -/
def expandIndent (tab : Nat) (ind : Str) : Str :=
  (ind.map (fun c => if c == '\t' then List.replicate tab ' ' else [c])).flatten

/-- Python `re.split(', ?', v)`: split at each comma, also consuming one
following space when present. -/
def splitCommaOpt : Str → List Str
  | [] => [[]]
  | ',' :: ' ' :: rest => [] :: splitCommaOpt rest
  | ',' :: rest => [] :: splitCommaOpt rest
  | c :: rest =>
      match splitCommaOpt rest with
      | s :: ss => (c :: s) :: ss
      | [] => [[c]]

/-- Python `', '.join(parts)`. -/
def joinCommaSpace : List Str → Str
  | [] => []
  | [s] => s
  | s :: ss => s ++ ',' :: ' ' :: joinCommaSpace ss

/-- `', '.join(re.split(', ?', v))` — the comma-spacing normalization applied
to operand lists and data initializer lists. -/
def normComma (v : Str) : Str := joinCommaSpace (splitCommaOpt v)

/-! ## Configuration (`DEFAULT_CONFIG`, minus the version key) -/

structure Config where
  fix_indents : Bool
  tab_size : Nat
  fix_file_width : Bool
  file_width : Nat
  long_comment_indent_amount : Nat
  fix_capitalization : Bool
  fix_blank_lines : Bool
  align_comments : Bool
  align_data_comments : Bool
  align_data_comments_separately : Bool
  min_comment_spacing : Nat
  align_code_section : Bool
  min_instruction_operand_spacing : Nat
  add_spaces_between_operands : Bool
  align_data_section : Bool
  align_code_and_data_together : Bool
  min_data_directive_spacing : Nat
  min_data_initial_value_spacing : Nat
  add_spaces_between_initial_values : Bool
  align_header_comments : Bool
  deriving Repr, DecidableEq

/-- The values of `DEFAULT_CONFIG` in the source. -/
def defaultConfig : Config where
  fix_indents := true
  tab_size := 2
  fix_file_width := true
  file_width := 80
  long_comment_indent_amount := 2
  fix_capitalization := true
  fix_blank_lines := true
  align_comments := true
  align_data_comments := true
  align_data_comments_separately := true
  min_comment_spacing := 3
  align_code_section := true
  min_instruction_operand_spacing := 3
  add_spaces_between_operands := true
  align_data_section := true
  align_code_and_data_together := false
  min_data_directive_spacing := 2
  min_data_initial_value_spacing := 2
  add_spaces_between_initial_values := true
  align_header_comments := true

/-! ## Tokens

The Python code builds tokens as dicts with a string `'type'` tag (and for
comments a `'subtype'` tag); the aggregation pass retags merged/collapsed
tokens to `'to_remove'`.  The finite tag sets are modeled as enums. -/

inductive TType where
  | blank_line | comment | directive | data | procedure | instruction | error | to_remove
  deriving Repr, DecidableEq

inductive TSub where
  | extension | header | full_line
  deriving Repr, DecidableEq

structure Token where
  type : TType
  subtype : Option TSub := none
  value : Option Str := none
  field : Option Str := none
  label : Option Str := none
  directive : Option Str := none
  mnemonic : Option Str := none
  operands : Option (Option Str) := none
  comment : Option (Option Str) := none
  error : Option String := none
  indent : Option Str := none
  deriving Repr, DecidableEq

/-! ## Classifier (lines 101–178 of the source)

The sequential `if/elif` regex tests are translated into executable matchers.
Each regex is hand-compiled; greedy repetition over a character class followed
by a disjoint character needs no backtracking, so maximal munch coincides with
Python's leftmost-greedy semantics.  The relevant classes: -/

/-- `[a-zA-Z0-9_]` (identifier continuation in the data/procedure regexes). -/
def wordChar (c : Char) : Bool := c.isAlphanum || c == '_'

/-- `[a-zA-Z_]` (identifier head in the data/procedure regexes). -/
def identFirst (c : Char) : Bool := c.isAlpha || c == '_'

/-- `[a-zA-Z0-9.]` — the directive-value class. -/
def dirClass (c : Char) : Bool := c.isAlphanum || c == '.'

/-- `[0-9a-zA-Z,()?]` — the data initializer-list class. -/
def dataInitChar (c : Char) : Bool :=
  c.isAlphanum || c == ',' || c == '(' || c == ')' || c == '?'

/-- `[0-9a-zA-Z,]` — the instruction operand class. -/
def opChar (c : Char) : Bool := c.isAlphanum || c == ','

/-- Greedy match of `(cls ?)+` (one class character then an optional single
space, repeated; the trailing optional space is consumed greedily even when no
further iteration follows, exactly as Python's regex engine does).
Returns `(consumed, rest)`; `([], input)` means zero iterations matched. -/
def seqMunch (cls : Char → Bool) : Str → Str × Str
  | [] => ([], [])
  | c :: ' ' :: rest2 =>
    if cls c then
      (match seqMunch cls rest2 with
       | ([], _) => (c :: [' '], rest2)
       | (a, b) => (c :: ' ' :: a, b))
    else ([], c :: ' ' :: rest2)
  | c :: rest =>
    if cls c then
      (match seqMunch cls rest with
       | ([], _) => ([c], rest)
       | (a, b) => (c :: a, b))
    else ([], c :: rest)

/-- The index (≥ 1) of the last `'"'` in `s`, used for the greedy `".+"`
alternative: `.+` consumes maximally and gives back to the last quote. -/
def lastQuoteIdx (s : Str) : Option Nat :=
  (List.range s.length).foldl
    (fun acc i => if s.get? i == some '"' && decide (1 ≤ i) then some i else acc) none

/-- Greedy match of `([0-9a-zA-Z,()?] ?|".+")+` (the data initializer list),
with explicit fuel so the kernel can evaluate it (each step consumes at least
one character, so `fuel = input length` never runs out).
Returns `(consumed, rest)`; `([], input)` means zero iterations matched. -/
def dataMunchF : Nat → Str → Str × Str
  | 0, s => ([], s)
  | _ + 1, [] => ([], [])
  | fuel + 1, c :: rest =>
    if dataInitChar c then
      match rest with
      | ' ' :: rest2 =>
        (match dataMunchF fuel rest2 with
         | ([], _) => (c :: [' '], rest2)
         | (a, b) => (c :: ' ' :: a, b))
      | _ =>
        (match dataMunchF fuel rest with
         | ([], _) => ([c], rest)
         | (a, b) => (c :: a, b))
    else if c = '"' then
      match lastQuoteIdx rest with
      | some i =>
        (match dataMunchF fuel (rest.drop (i + 1)) with
         | ([], _) => ('"' :: rest.take i ++ ['"'], rest.drop (i + 1))
         | (a, b) => ('"' :: rest.take i ++ '"' :: a, b))
      | none => ([], c :: rest)
    else ([], c :: rest)

def dataMunch (s : Str) : Str × Str := dataMunchF s.length s

/-- `re.search(r';.*(Author|Assignment|Date).*:', line, re.IGNORECASE)` as a
boolean: a `';'` at some index, one of the keywords (case-insensitively)
starting strictly later, and a `':'` at or after the keyword's end. -/
def headerMatch (line : Str) : Bool :=
  (List.range line.length).any fun i =>
    line.get? i == some ';' &&
    ([strLit₀ "author", strLit₀ "assignment", strLit₀ "date"].any fun kw =>
      (List.range line.length).any fun j =>
        decide (i + 1 ≤ j) && kw.isPrefixOf (lowerStr (line.drop j)) &&
        (line.drop (j + kw.length)).any (fun c => c == ':'))
where strLit₀ (s : String) : Str := s.toList

/-- `re.match(r'\.?([a-zA-Z0-9.] ?)+', line)` — the directive value.  `none`
models a failed match (the Python code would then raise `AttributeError` on
`.group(0)`). -/
def dirValueMatch (line : Str) : Option Str :=
  match line with
  | '.' :: rest =>
    -- greedy `\.?` consumes the dot if the `+` can then match; otherwise the
    -- engine backtracks to an empty `\.?` and the first iteration consumes
    -- the dot itself (`.` is in the class), which always succeeds here
    (match seqMunch dirClass rest with
     | ([], _) => some (seqMunch dirClass ('.' :: rest)).1
     | (a, _) => some ('.' :: a))
  | _ =>
    match seqMunch dirClass line with
    | ([], _) => none
    | (a, _) => some a

/-- `line[line.find(';') + 2:] if line.find(';') > 0 else None` — the trailing
comment captured for directive/data/procedure/instruction tokens. -/
def lineComment (line : Str) : Option Str :=
  match line.findIdx? (fun c => c == ';') with
  | some i => if 0 < i then some (line.drop (i + 2)) else none
  | none => none

/-- Case-insensitive literal prefix (the regex runs with `re.IGNORECASE`);
returns the consumed original-case text and the rest. -/
def ciLit (pat : Str) (s : Str) : Option (Str × Str) :=
  if lowerStr (s.take pat.length) = lowerStr pat then some (s.take pat.length, s.drop pat.length)
  else none

/-- `(BYTE|D?Q?WORD)` (case-insensitive): the alternatives in the engine's
preference order.  The four `WORD`-family shapes are pairwise incompatible as
prefixes, so no two alternatives can match the same input. -/
def sizeKw (s : Str) : Option (Str × Str) :=
  match ciLit ("BYTE".toList) s with
  | some r => some r
  | none =>
    match ciLit ("DQWORD".toList) s with
    | some r => some r
    | none =>
      match ciLit ("DWORD".toList) s with
      | some r => some r
      | none =>
        match ciLit ("QWORD".toList) s with
        | some r => some r
        | none => ciLit ("WORD".toList) s

/-- `re.search(r'^([a-zA-Z_][a-zA-Z0-9_]+)[ \t]+(BYTE|D?Q?WORD)[ \t]+(([0-9a-zA-Z,()?] ?|".+")+)', line, re.IGNORECASE)`:
label (head + at least one more word character), whitespace, size keyword,
whitespace, initializer list.  Word characters, whitespace and the initializer
classes are disjoint at each boundary, so greedy munching is faithful.
The unanchored extraction regex on line 142 finds the same leftmost match.
Returns `(group 1, group 2, group 3)`. -/
def matchData (line : Str) : Option (Str × Str × Str) :=
  match line with
  | [] => none
  | c :: rest =>
    if identFirst c then
      let tail := rest.takeWhile wordChar
      if 1 ≤ tail.length then
        let r1 := rest.drop tail.length
        let ws := r1.takeWhile wsChar
        if ws.length ≠ 0 then
          match sizeKw (r1.drop ws.length) with
          | some (sz, r3) =>
            let ws2 := r3.takeWhile wsChar
            if ws2.length ≠ 0 then
              match dataMunch (r3.drop ws2.length) with
              | ([], _) => none
              | (v, _) => some (c :: tail, sz, v)
            else none
          | none => none
        else none
      else none
    else none

/-- `re.search(r'^([a-zA-Z_][a-zA-Z0-9_]*)[ \t]+(PROC|ENDP)', line)`
(case-sensitive).  Returns `(group 1, group 2)`. -/
def matchProc (line : Str) : Option (Str × Str) :=
  match line with
  | [] => none
  | c :: rest =>
    if identFirst c then
      let tail := rest.takeWhile wordChar
      let r1 := rest.drop tail.length
      let ws := r1.takeWhile wsChar
      if ws.length ≠ 0 then
        let r2 := r1.drop ws.length
        if ("PROC".toList).isPrefixOf r2 then some (c :: tail, "PROC".toList)
        else if ("ENDP".toList).isPrefixOf r2 then some (c :: tail, "ENDP".toList)
        else none
      else none
    else none

/-- `re.search(r'^([a-zA-Z][a-zA-Z0-9]*)([ \t]+(([0-9a-zA-Z,] ?)+))?', line)`:
mnemonic, then an optional whitespace-plus-operand-list group (absent — not
empty — when it cannot match).  Returns `(group 1, group 3)`. -/
def matchInstr (line : Str) : Option (Str × Option Str) :=
  match line with
  | [] => none
  | c :: rest =>
    if c.isAlpha then
      let tail := rest.takeWhile Char.isAlphanum
      let r1 := rest.drop tail.length
      let ws := r1.takeWhile wsChar
      let ops :=
        if ws.length = 0 then none
        else
          match seqMunch opChar (r1.drop ws.length) with
          | ([], _) => none
          | (a, _) => some a
      some (c :: tail, ops)
    else none

/-- The classifier: one whitespace-stripped line to one token, first matching
rule wins (source lines 106–174).  `Except` models the `AttributeError` the
source raises when the directive-value regex fails to match
(`re.match(...).group(0)` on `None`). -/
def classify (line : Str) : Except String Token :=
  if line.length = 0 then
    .ok { type := .blank_line }
  else if (";  ".toList).isPrefixOf line = true then
    .ok { type := .comment, subtype := some .extension, value := some (stripStr (line.drop 1)) }
  else if headerMatch line = true then
    match line.findIdx? (fun c => c == ':') with
    | some i =>
      .ok { type := .comment, subtype := some .header,
            field := some (stripStr ((line.take i).drop 1)),
            value := some (stripStr (line.drop (i + 1))) }
    | none => .error "unreachable: the header pattern guarantees a colon"
  else if line.headD ' ' = ';' then
    .ok { type := .comment, subtype := some .full_line, value := some (stripStr (line.drop 1)) }
  else if line.headD ' ' = '.' ∨ ("INCLUDE".toList).isPrefixOf line = true
          ∨ ("END".toList).isPrefixOf (line.drop 2) = true then
    -- `line.startswith('END', re.IGNORECASE)`: `re.IGNORECASE` has integer
    -- value 2 and is taken as the *start offset*, so this tests for the
    -- literal `'END'` at index 2, case-sensitively.
    match dirValueMatch line with
    | some v =>
      .ok { type := .directive, value := some (stripStr v), comment := some (lineComment line) }
    | none => .error "AttributeError: NoneType has no attribute group"
  else
    match matchData line with
    | some (lab, sz, v) =>
      .ok { type := .data, label := some lab, directive := some sz,
            value := some (stripStr v), comment := some (lineComment line) }
    | none =>
      match matchProc line with
      | some (lab, kind) =>
        .ok { type := .procedure, label := some lab, value := some kind,
              comment := some (lineComment line) }
      | none =>
        match matchInstr line with
        | some (mn, ops) =>
          .ok { type := .instruction, mnemonic := some mn,
                operands := some (ops.map stripStr), comment := some (lineComment line) }
        | none =>
          .ok { type := .error, error := some "Unrecognized Token", value := some line }

/-- Per-line preprocessing plus classification (source lines 101–178): capture
the leading indent (tabs expanded), strip the line, classify, and attach the
indent to the token only when `fix_indents` is disabled. -/
def classifyLine (cfg : Config) (raw : Str) : Except String Token := do
  let indent := expandIndent cfg.tab_size (raw.takeWhile wsChar)
  let t ← classify (stripStr raw)
  pure (if cfg.fix_indents then t else { t with indent := some indent })

/-! ## Aggregator (source lines 180–220)

A single index-ordered pass mutating the token list in place; tokens already
processed can be re-read and mutated through `tokens[i - 1]`, so the state
carries the processed prefix in reverse order (head = most recent). -/

structure AggStats where
  max_field_size : Nat := 0
  max_label_size : Nat := 0
  max_size_size : Nat := 0
  max_mnemonic_size : Nat := 0
  deriving Repr, DecidableEq

structure AggState where
  done : List Token := []
  idx : Nat := 0
  stats : AggStats := {}
  diags : List (Nat × String × Str) := []
  deriving Repr, DecidableEq

/-- The body of the `for i in range(len(tokens))` loop (source lines 185–214).
`KeyError` models reading a dict key that was never set (which happens, e.g.,
when two comment-extension lines follow each other: the second one merges into
the first — already retyped `to_remove` — whose dict has no `'comment'`
key). -/
def aggStep (cfg : Config) (st : AggState) (t : Token) : Except String AggState := do
  -- lines 186–191: merge a comment extension into its predecessor
  let (t, done) ←
    if cfg.fix_file_width = true ∧ 0 < st.idx ∧ t.type = TType.comment
        ∧ t.subtype = some TSub.extension then
      match st.done with
      | [] => Except.error "unreachable: idx > 0 means a predecessor exists"
      | prev :: ds =>
        if prev.type = TType.comment then
          match prev.value, t.value with
          | some pv, some tv =>
            Except.ok ({ t with type := TType.to_remove },
                       { prev with value := some (pv ++ ' ' :: tv) } :: ds)
          | _, _ => Except.error "KeyError: value"
        else
          match prev.comment, t.value with
          | some pc, some tv =>
            Except.ok ({ t with type := TType.to_remove },
                       { prev with comment := some (some (pc.getD [] ++ ' ' :: tv)) } :: ds)
          | none, _ => Except.error "KeyError: comment"
          | _, none => Except.error "KeyError: value"
    else Except.ok (t, st.done)
  -- lines 192–198: capitalization normalization
  let t :=
    if cfg.fix_capitalization = true then
      let t := match t.mnemonic with
        | some m => { t with mnemonic := some (lowerStr m) }
        | none => t
      let t := match t.directive with
        | some d => { t with directive := some (upperStr d) }
        | none => t
      if t.type = TType.directive then { t with value := t.value.map upperStr } else t
    else t
  -- lines 199–214: the `if/elif` chain over the (possibly retyped) token
  let (t, stats, diags) ←
    if t.type = TType.error then
      match t.error, t.value with
      | some e, some v => Except.ok (t, st.stats, st.diags ++ [(st.idx + 1, e, v)])
      | _, _ => Except.error "KeyError: error token fields"
    else if t.type = TType.data then
      match t.label, t.directive with
      | some lab, some dir =>
        let stats := { st.stats with
          max_label_size := max st.stats.max_label_size lab.length,
          max_size_size := max st.stats.max_size_size dir.length }
        let t := if cfg.add_spaces_between_initial_values = true ∧ t.value.isSome = true then
            { t with value := t.value.map normComma }
          else t
        Except.ok (t, stats, st.diags)
      | _, _ => Except.error "KeyError: data token fields"
    else if t.type = TType.instruction then
      match t.mnemonic, t.operands with
      | some mn, some ops =>
        let stats := { st.stats with
          max_mnemonic_size := max st.stats.max_mnemonic_size mn.length }
        let t := if cfg.add_spaces_between_operands = true ∧ ops.isSome = true then
            { t with operands := some (ops.map normComma) }
          else t
        Except.ok (t, stats, st.diags)
      | _, _ => Except.error "KeyError: instruction token fields"
    else if cfg.fix_blank_lines = true ∧ 0 < st.idx ∧ t.type = TType.blank_line then
      -- the predecessor consulted here is the *current* state of
      -- `tokens[i - 1]`: a blank already retyped `to_remove` no longer counts
      match done with
      | prev :: _ =>
        if prev.type = TType.blank_line then
          Except.ok ({ t with type := TType.to_remove }, st.stats, st.diags)
        else Except.ok (t, st.stats, st.diags)
      | [] => Except.error "unreachable: idx > 0 means a predecessor exists"
    else if t.type = TType.comment ∧ t.subtype = some TSub.header then
      match t.field with
      | some f =>
        Except.ok (t, { st.stats with
          max_field_size := max st.stats.max_field_size f.length }, st.diags)
      | none => Except.error "KeyError: field"
    else Except.ok (t, st.stats, st.diags)
  Except.ok { done := t :: done, idx := st.idx + 1, stats := stats, diags := diags }

/-- The whole aggregation pass: the loop, the `align_code_and_data_together`
merge of the width maxima and of the two spacing options (source lines
216–218, which mutate the config), and the `to_remove` filter (line 220). -/
def aggregate (cfg : Config) (toks : List Token) :
    Except String (List Token × AggStats × Config × List (Nat × String × Str)) := do
  let st ← toks.foldlM (aggStep cfg) {}
  let statsCfg :=
    if cfg.align_code_and_data_together = true then
      let m := max st.stats.max_label_size st.stats.max_mnemonic_size
      let sp := max cfg.min_instruction_operand_spacing cfg.min_data_directive_spacing
      ({ st.stats with max_label_size := m, max_mnemonic_size := m },
       { cfg with min_instruction_operand_spacing := sp, min_data_directive_spacing := sp })
    else (st.stats, cfg)
  Except.ok (st.done.reverse.filter (fun t => t.type ≠ TType.to_remove), statsCfg.1, statsCfg.2,
             st.diags)

/-! ## Renderer (source lines 222–292) -/

/-- A rendered line: a plain Python string, or the
`{'str': …, 'comment': …}` dict (`data` records whether the dict carries the
`'data'` key). -/
inductive Parsed where
  | plain (s : Str)
  | structured (str : Str) (comment : Option Str) (data : Bool)
  deriving Repr, DecidableEq

structure RState where
  parsed : List Parsed := []
  max_string_size : Nat := 0
  max_data_string_size : Nat := 0
  indent_counter : Int := 0
  deriving Repr, DecidableEq

/-- The body of the `for token in tokens` rendering loop (source lines
227–292).  Tokens matching no branch of the `if/elif` (error tokens, and
comment extensions that survive aggregation when `fix_file_width` is off)
append nothing; the indentation step then applies to `parsed_tokens[-1]`,
i.e. to the previous token's rendered line — or raises `IndexError` when the
list is still empty. -/
def renderStep (cfg : Config) (stats : AggStats) (st : RState) (t : Token) :
    Except String RState := do
  let (appended, counter, maxDS) ←
    if t.type = TType.comment ∧ t.subtype = some TSub.header then
      match t.field, t.value with
      | some f, some v =>
        -- `len('; : ')` = 4
        let line :=
          if cfg.align_header_comments = true then
            ljust ("; ".toList ++ f ++ [':']) (4 + stats.max_field_size) ++ v
          else "; ".toList ++ f ++ ": ".toList ++ v
        if cfg.fix_file_width = true ∧ cfg.file_width < line.length then
          match rfindSpace line cfg.file_width with
          | some p =>
            Except.ok ([Parsed.plain (line.take p),
                        Parsed.plain (ljust "; ".toList (4 + stats.max_field_size) ++ line.drop (p + 1))],
                       st.indent_counter, st.max_data_string_size)
          | none =>
            -- `line.rfind` returned `-1`: `line[:last_space]` is `line[:-1]`
            -- and `line[last_space + 1:]` is the whole line
            Except.ok ([Parsed.plain (line.take (line.length - 1)),
                        Parsed.plain (ljust "; ".toList (4 + stats.max_field_size) ++ line)],
                       st.indent_counter, st.max_data_string_size)
        else Except.ok ([Parsed.plain line], st.indent_counter, st.max_data_string_size)
      | _, _ => Except.error "KeyError: header fields"
    else if t.type = TType.comment ∧ t.subtype = some TSub.full_line then
      match t.value with
      | some v =>
        Except.ok ([Parsed.structured ("; ".toList ++ v) none false],
                   st.indent_counter, st.max_data_string_size)
      | none => Except.error "KeyError: value"
    else if t.type = TType.blank_line then
      Except.ok ([Parsed.plain []], st.indent_counter, st.max_data_string_size)
    else if t.type = TType.directive then
      match t.value, t.comment with
      | some v, some c =>
        Except.ok ([Parsed.structured v c false], st.indent_counter, st.max_data_string_size)
      | _, _ => Except.error "KeyError: directive fields"
    else if t.type = TType.data then
      match t.label, t.directive, t.value, t.comment with
      | some lab, some dir, some v, some c =>
        let s :=
          ljust lab ((if cfg.align_data_section = true then stats.max_label_size else lab.length)
                      + cfg.min_data_directive_spacing)
          ++ ljust dir (stats.max_size_size + cfg.min_data_initial_value_spacing) ++ v
        -- lines 263–264: the data-column maximum is taken *before* the
        -- indentation prefix is applied
        let maxDS :=
          if cfg.align_data_comments = true ∧ cfg.align_data_comments_separately = true then
            max st.max_data_string_size s.length
          else st.max_data_string_size
        Except.ok ([Parsed.structured s c true], st.indent_counter, maxDS)
      | _, _, _, _ => Except.error "KeyError: data fields"
    else if t.type = TType.procedure then
      match t.label, t.value, t.comment with
      | some lab, some v, some c =>
        -- lines 270–273: the depth counter changes here, *before* the
        -- indentation step below prefixes this very line
        let counter := if v = "PROC".toList then st.indent_counter + 1 else st.indent_counter - 1
        Except.ok ([Parsed.structured (lab ++ ' ' :: v) c false], counter, st.max_data_string_size)
      | _, _, _ => Except.error "KeyError: procedure fields"
    else if t.type = TType.instruction then
      match t.mnemonic, t.operands, t.comment with
      | some mn, some ops, some c =>
        let s :=
          ljust mn ((if cfg.align_code_section = true then stats.max_mnemonic_size else mn.length)
                     + cfg.min_instruction_operand_spacing) ++ ops.getD []
        Except.ok ([Parsed.structured s c false], st.indent_counter, st.max_data_string_size)
      | _, _, _ => Except.error "KeyError: instruction fields"
    else
      Except.ok ([], st.indent_counter, st.max_data_string_size)
  -- lines 280–289: prefix the indentation onto `parsed_tokens[-1]`
  match appended.reverse ++ st.parsed with
  | [] => Except.error "IndexError: list index out of range"
  | last :: restP =>
    let pre ←
      if cfg.fix_indents = true then
        Except.ok (List.replicate ((cfg.tab_size : Int) * counter).toNat ' ')
      else
        match t.indent with
        | some ind => Except.ok ind
        | none => Except.error "KeyError: indent"
    let last :=
      match last with
      | Parsed.plain s => Parsed.plain (pre ++ s)
      | Parsed.structured s c d => Parsed.structured (pre ++ s) c d
    -- lines 291–292: the global comment-column maximum, over the *indented*
    -- last entry
    let lastIsDict := match last with | Parsed.structured .. => true | _ => false
    let maxS :=
      if (lastIsDict = true ∧ t.type ≠ TType.data
            ∨ t.type = TType.data ∧ cfg.align_data_comments = true
              ∧ cfg.align_data_comments_separately = false)
          ∧ (t.type ≠ TType.comment ∨ t.subtype ≠ some TSub.full_line) then
        match last with
        | Parsed.structured s _ _ => max st.max_string_size s.length
        | Parsed.plain _ => st.max_string_size  -- unreachable: data lines are dicts
      else st.max_string_size
    Except.ok { parsed := last :: restP, max_string_size := maxS,
                max_data_string_size := maxDS, indent_counter := counter }

/-- The whole rendering pass. -/
def render (cfg : Config) (stats : AggStats) (toks : List Token) :
    Except String (List Parsed × Nat × Nat) := do
  let st ← toks.foldlM (renderStep cfg stats) {}
  Except.ok (st.parsed.reverse, st.max_string_size, st.max_data_string_size)

/-! ## Emitter (source lines 294–318) -/

/-- The comment-column choice, comment append and trailing-whitespace trim for
one structured line (source lines 304–311). -/
def outputString (cfg : Config) (maxS maxDS : Nat) (s : Str) (cmt : Option Str) (d : Bool) :
    Str :=
  let commentPart :=
    match cmt with
    | some c => if c.length ≠ 0 then "; ".toList ++ c else []
    | none => []
  rstripStr
    (if cfg.align_comments = true ∧ d = false
        ∨ cfg.align_comments = true ∧ d = true ∧ cfg.align_data_comments = true
          ∧ cfg.align_data_comments_separately = false then
      ljust s (maxS + cfg.min_comment_spacing) ++ commentPart
    else if d = true ∧ cfg.align_data_comments = true
        ∧ cfg.align_data_comments_separately = true then
      ljust s (maxDS + cfg.min_comment_spacing) ++ commentPart
    else s ++ List.replicate cfg.min_comment_spacing ' ' ++ commentPart)

/-- Emission of one rendered line (source lines 300–317): the first component
goes to the selected output sink (`output_file`), the second is printed by the
bare `print(...)` on line 317 — i.e. always to standard output.  When the
line exceeds the width and has no space before the limit, `rfind` returns
`-1`, so the sink receives `output_string[:-1]` and stdout the whole line. -/
def emitOne (cfg : Config) (maxS maxDS : Nat) : Parsed → List Str × List Str
  | Parsed.plain s => ([s], [])
  | Parsed.structured s cmt d =>
    let os := outputString cfg maxS maxDS s cmt d
    if cfg.fix_file_width = false ∨ os.length ≤ cfg.file_width then ([os], [])
    else
      match rfindSpace os cfg.file_width with
      | some p =>
        ([os.take p],
         [rjustI "; ".toList (pyFind ';' os + 2)
          ++ List.replicate cfg.long_comment_indent_amount ' ' ++ os.drop (p + 1)])
      | none =>
        ([os.take (os.length - 1)],
         [rjustI "; ".toList (pyFind ';' os + 2)
          ++ List.replicate cfg.long_comment_indent_amount ' ' ++ os])

/-- The output loop (source lines 300–317), accumulating sink lines and
stdout lines in order. -/
def emitAll (cfg : Config) (maxS maxDS : Nat) : List Parsed → List Str × List Str
  | [] => ([], [])
  | p :: ps =>
    let (f, s) := emitOne cfg maxS maxDS p
    let (fs, ss) := emitAll cfg maxS maxDS ps
    (f ++ fs, s ++ ss)

/-- The result of one full run: the lines written to the selected output sink,
the lines the wrap fallback prints to stdout, and the error diagnostics. -/
structure RunResult where
  output : List Str
  stdout : List Str
  diags : List (Nat × String × Str)
  deriving Repr, DecidableEq

/-- The full pipeline of `main` on in-memory lines: classification,
aggregation, rendering, emission.  `Except.error` models an uncaught Python
exception. -/
def run (cfg : Config) (rawLines : List Str) : Except String RunResult := do
  let toks ← rawLines.mapM (classifyLine cfg)
  let (toks, stats, cfg, diags) ← aggregate cfg toks
  let (parsed, maxS, maxDS) ← render cfg stats toks
  let (fileLines, stdLines) := emitAll cfg maxS maxDS parsed
  Except.ok { output := fileLines, stdout := stdLines, diags := diags }

/-! ## Derived views of the emitter

`emitPrimary`/`emitCont` split `emitOne` into the single line each rendered
line contributes to the sink stream and the optional continuation line it
contributes to stdout; `emitOne_split` proves the factorization. -/

/-- The one line `emitOne` sends to the output sink for a rendered line. -/
def emitPrimary (cfg : Config) (maxS maxDS : Nat) : Parsed → Str
  | Parsed.plain s => s
  | Parsed.structured s cmt d =>
    let os := outputString cfg maxS maxDS s cmt d
    if cfg.fix_file_width = false ∨ os.length ≤ cfg.file_width then os
    else
      match rfindSpace os cfg.file_width with
      | some p => os.take p
      | none => os.take (os.length - 1)

/-- The continuation line `emitOne` sends to stdout, when the rendered line
wraps. -/
def emitCont (cfg : Config) (maxS maxDS : Nat) : Parsed → Option Str
  | Parsed.plain _ => none
  | Parsed.structured s cmt d =>
    let os := outputString cfg maxS maxDS s cmt d
    if cfg.fix_file_width = false ∨ os.length ≤ cfg.file_width then none
    else
      match rfindSpace os cfg.file_width with
      | some p =>
        some (rjustI "; ".toList (pyFind ';' os + 2)
              ++ List.replicate cfg.long_comment_indent_amount ' ' ++ os.drop (p + 1))
      | none =>
        some (rjustI "; ".toList (pyFind ';' os + 2)
              ++ List.replicate cfg.long_comment_indent_amount ' ' ++ os)

/-- Shape predicate for the amended data-line claim: a nonempty initializer
list of class characters, with single spaces allowed between them. -/
def goodInit : Str → Bool
  | [] => false
  | [c] => dataInitChar c
  | c :: ' ' :: rest => dataInitChar c && goodInit rest
  | c :: rest => dataInitChar c && goodInit rest

/-! ## Helper lemmas -/

theorem emitOne_split (cfg : Config) (maxS maxDS : Nat) (p : Parsed) :
    emitOne cfg maxS maxDS p =
      ([emitPrimary cfg maxS maxDS p], (emitCont cfg maxS maxDS p).toList) := by
  cases p with
  | plain s => rfl
  | structured s cmt d =>
    simp only [emitOne, emitPrimary, emitCont]
    split
    · rfl
    · split <;> rfl

theorem goodInit_cons_cons (c d : Char) (rest : Str) (hd : d ≠ ' ') :
    goodInit (c :: d :: rest) = (dataInitChar c && goodInit (d :: rest)) := by
  rw [goodInit.eq_def]
  split
  · rename_i heq; exact absurd heq (by simp)
  · rename_i c' heq; exact absurd heq (by simp)
  · rename_i c' rest' heq
    injection heq with h1 h2
    injection h2 with h3 h4
    exact absurd h3 hd
  · rename_i c' rest' h1 h2 heq
    injection heq with h3 h4
    subst h3; subst h4
    rfl

theorem dataMunchF_nil (n : Nat) : dataMunchF n [] = ([], []) := by
  cases n <;> rfl

theorem dataInitChar_not_ws (c : Char) (h : dataInitChar c = true) : wsChar c = false := by
  cases hw : wsChar c
  · rfl
  · have hsp : c = ' ' ∨ c = '\t' := by simpa [wsChar] using hw
    rcases hsp with rfl | rfl <;> exact absurd h (by decide)

theorem goodInit_head (s : Str) (h : goodInit s = true) :
    ∃ c rest, s = c :: rest ∧ dataInitChar c = true := by
  cases s with
  | nil => exact absurd h (by decide)
  | cons c rest =>
    refine ⟨c, rest, rfl, ?_⟩
    cases rest with
    | nil => simpa [goodInit] using h
    | cons d rest' =>
      by_cases hd : d = ' '
      · subst hd
        exact (Bool.and_eq_true_iff.mp (by simpa [goodInit] using h)).1
      · rw [goodInit_cons_cons c d rest' hd] at h
        exact (Bool.and_eq_true_iff.mp h).1

theorem goodInit_ne_nil (s : Str) (h : goodInit s = true) : s ≠ [] := by
  intro hnil; subst hnil; exact absurd h (by decide)

theorem goodInit_munch : ∀ (n : Nat) (s : Str), s.length ≤ n → goodInit s = true →
    dataMunchF n s = (s, []) := by
  intro n
  induction n with
  | zero =>
    intro s hs hg
    cases s with
    | nil => exact absurd hg (by decide)
    | cons c rest => simp only [List.length_cons] at hs; omega
  | succ n ih =>
    intro s hs hg
    cases s with
    | nil => exact absurd hg (by decide)
    | cons c rest =>
      obtain ⟨c', rest'', heq, hc⟩ := goodInit_head _ hg
      injection heq with h1 h2
      subst h1; subst h2
      cases rest with
      | nil =>
        show dataMunchF (n + 1) [c] = ([c], [])
        rw [dataMunchF.eq_def]
        simp only [if_pos hc]
        rw [dataMunchF_nil]
      | cons d rest' =>
        by_cases hd : d = ' '
        · subst hd
          have hg2 : goodInit rest' = true :=
            (Bool.and_eq_true_iff.mp (by simpa [goodInit] using hg)).2
          have hlen : rest'.length ≤ n := by
            simp only [List.length_cons] at hs; omega
          have hmun := ih rest' hlen hg2
          show dataMunchF (n + 1) (c :: ' ' :: rest') = (c :: ' ' :: rest', [])
          rw [dataMunchF.eq_def]
          simp only [if_pos hc, hmun]
          cases rest' <;> rfl
        · rw [goodInit_cons_cons c d rest' hd] at hg
          have hg2 : goodInit (d :: rest') = true := (Bool.and_eq_true_iff.mp hg).2
          have hlen : (d :: rest').length ≤ n := by
            simp only [List.length_cons] at hs ⊢; omega
          have hmun := ih (d :: rest') hlen hg2
          show dataMunchF (n + 1) (c :: d :: rest') = (c :: d :: rest', [])
          rw [dataMunchF.eq_def]
          simp only [if_pos hc]
          split
          · rename_i rest2 heq
            injection heq with h3 h4
            exact absurd h3 hd
          · rw [hmun]

theorem goodInit_cons (c : Char) (rest : Str) (h : goodInit (c :: rest) = true) :
    dataInitChar c = true := by
  obtain ⟨c', r', heq, hc⟩ := goodInit_head _ h
  injection heq with h1 h2
  subst h1
  exact hc

theorem goodInit_last : ∀ (n : Nat) (s : Str), s.length ≤ n → goodInit s = true →
    ∃ c, s.getLast? = some c ∧ dataInitChar c = true := by
  intro n
  induction n with
  | zero =>
    intro s hs hg
    cases s with
    | nil => exact absurd hg (by decide)
    | cons c rest => simp only [List.length_cons] at hs; omega
  | succ n ih =>
    intro s hs hg
    cases s with
    | nil => exact absurd hg (by decide)
    | cons c rest =>
      cases rest with
      | nil =>
        exact ⟨c, rfl, by simpa [goodInit] using hg⟩
      | cons d rest' =>
        by_cases hd : d = ' '
        · subst hd
          have hg2 : goodInit rest' = true :=
            (Bool.and_eq_true_iff.mp (by simpa [goodInit] using hg)).2
          have hlen : rest'.length ≤ n := by
            simp only [List.length_cons] at hs; omega
          obtain ⟨e, he, hde⟩ := ih rest' hlen hg2
          refine ⟨e, ?_, hde⟩
          rw [List.getLast?_cons_cons]
          cases rest' with
          | nil => exact absurd hg2 (by decide)
          | cons f rest'' => rw [List.getLast?_cons_cons]; exact he
        · rw [goodInit_cons_cons c d rest' hd] at hg
          have hg2 : goodInit (d :: rest') = true := (Bool.and_eq_true_iff.mp hg).2
          have hlen : (d :: rest').length ≤ n := by
            simp only [List.length_cons] at hs ⊢; omega
          obtain ⟨e, he, hde⟩ := ih (d :: rest') hlen hg2
          exact ⟨e, by rw [List.getLast?_cons_cons]; exact he, hde⟩

theorem goodInit_strip (s : Str) (h : goodInit s = true) : stripStr s = s := by
  obtain ⟨c, rest, rfl, hc⟩ := goodInit_head s h
  have h1 : lstripStr (c :: rest) = c :: rest := by
    simp only [lstripStr, List.dropWhile_cons, dataInitChar_not_ws c hc]
    simp
  rw [stripStr, h1]
  obtain ⟨e, he, hde⟩ := goodInit_last (c :: rest).length (c :: rest) le_rfl h
  rw [rstripStr]
  have hrev : (c :: rest).reverse.head? = some e := by rw [List.head?_reverse]; exact he
  cases hr : (c :: rest).reverse with
  | nil => rw [hr] at hrev; exact absurd hrev (by simp)
  | cons e' tail =>
    rw [hr] at hrev
    have he' : e' = e := by simpa using hrev
    have hwse : wsChar e' = false := by rw [he']; exact dataInitChar_not_ws e hde
    rw [List.dropWhile_cons, hwse]
    simp only [Bool.false_eq_true, if_false]
    rw [← hr, List.reverse_reverse]

theorem goodInit_mem : ∀ (n : Nat) (s : Str), s.length ≤ n → goodInit s = true →
    ∀ c ∈ s, dataInitChar c = true ∨ c = ' ' := by
  intro n
  induction n with
  | zero =>
    intro s hs hg
    cases s with
    | nil => simp
    | cons c rest => simp only [List.length_cons] at hs; omega
  | succ n ih =>
    intro s hs hg
    cases s with
    | nil => simp
    | cons c rest =>
      have hc : dataInitChar c = true := goodInit_cons _ _ hg
      cases rest with
      | nil =>
        intro x hx
        rcases List.mem_singleton.mp hx with rfl
        exact Or.inl hc
      | cons d rest' =>
        by_cases hd : d = ' '
        · subst hd
          have hg2 : goodInit rest' = true :=
            (Bool.and_eq_true_iff.mp (by simpa [goodInit] using hg)).2
          have hlen : rest'.length ≤ n := by
            simp only [List.length_cons] at hs; omega
          intro x hx
          rcases List.mem_cons.mp hx with rfl | hx2
          · exact Or.inl hc
          · rcases List.mem_cons.mp hx2 with rfl | hx3
            · exact Or.inr rfl
            · exact ih rest' hlen hg2 x hx3
        · rw [goodInit_cons_cons c d rest' hd] at hg
          have hg2 : goodInit (d :: rest') = true := (Bool.and_eq_true_iff.mp hg).2
          have hlen : (d :: rest').length ≤ n := by
            simp only [List.length_cons] at hs ⊢; omega
          intro x hx
          rcases List.mem_cons.mp hx with rfl | hx2
          · exact Or.inl hc
          · exact ih (d :: rest') hlen hg2 x hx2

theorem headerMatch_of_no_semi (L : Str) (h : ∀ c ∈ L, c ≠ ';') : headerMatch L = false := by
  rw [headerMatch, List.any_eq_false]
  intro i hi
  cases hg : L.get? i with
  | none => simp [hg]
  | some x =>
    have hx : x ∈ L := List.get?_mem hg
    have : ¬(x == ';') = true := by
      intro hb
      exact h x hx (by simpa using hb)
    simp [hg, this]

theorem lineComment_of_no_semi (L : Str) (h : ∀ c ∈ L, c ≠ ';') : lineComment L = none := by
  rw [lineComment]
  have : L.findIdx? (fun c => c == ';') = none := by
    rw [List.findIdx?_eq_none_iff]
    intro x hx
    simpa using h x hx
  rw [this]

theorem takeWhile_all_append (p : Char → Bool) (xs ys : Str) (h : ∀ x ∈ xs, p x = true) :
    (xs ++ ys).takeWhile p = xs ++ ys.takeWhile p := by
  induction xs with
  | nil => simp
  | cons x xs ih =>
    simp only [List.cons_append, List.takeWhile_cons, h x (List.mem_cons_self x xs)]
    simp only [if_true]
    rw [ih (fun y hy => h y (List.mem_cons_of_mem x hy))]

theorem takeWhile_cons_neg (p : Char → Bool) (y : Char) (ys : Str) (h : p y = false) :
    (y :: ys).takeWhile p = [] := by
  simp [List.takeWhile_cons, h]

theorem lowerStr_append (a b : Str) : lowerStr (a ++ b) = lowerStr a ++ lowerStr b :=
  List.map_append _ a b

theorem lowerStr_take (n : Nat) (s : Str) : lowerStr (s.take n) = (lowerStr s).take n :=
  List.map_take _ s n

theorem lowerStr_length (s : Str) : (lowerStr s).length = s.length := List.length_map s _

theorem ciLit_exact (pat sz r : Str) (h : lowerStr sz = lowerStr pat)
    (hlen : sz.length = pat.length) : ciLit pat (sz ++ r) = some (sz, r) := by
  rw [ciLit, List.take_left' hlen, List.drop_left' hlen, if_pos h]

theorem ciLit_short (pat sz r : Str) (hlen : pat.length ≤ sz.length)
    (h : (lowerStr sz).take pat.length ≠ lowerStr pat) :
    ciLit pat (sz ++ r) = none := by
  rw [ciLit, if_neg]
  intro hc
  rw [List.take_append_eq_append_take, Nat.sub_eq_zero_of_le hlen, List.take_zero,
      List.append_nil, lowerStr_take] at hc
  exact h hc

theorem ciLit_mismatch (pat sz r : Str) (hlen : sz.length ≤ pat.length)
    (h : ∀ x, lowerStr sz ++ x ≠ lowerStr pat) :
    ciLit pat (sz ++ r) = none := by
  rw [ciLit, if_neg]
  intro hc
  rw [List.take_append_eq_append_take, List.take_of_length_le hlen, lowerStr_append] at hc
  exact h _ hc

theorem sizeKw_of_kw (sz r : Str)
    (h : lowerStr sz = "byte".toList ∨ lowerStr sz = "word".toList ∨
         lowerStr sz = "dword".toList ∨ lowerStr sz = "qword".toList) :
    sizeKw (sz ++ r) = some (sz, r) := by
  have hlen := lowerStr_length sz
  rcases h with h | h | h | h
  · have c1 : ciLit ("BYTE".toList) (sz ++ r) = some (sz, r) :=
      ciLit_exact _ _ _ (by rw [h]; rfl) (by rw [← hlen, h]; rfl)
    simp only [sizeKw, c1]
  · have hl : sz.length = 4 := by rw [← hlen, h]; rfl
    have c1 : ciLit ("BYTE".toList) (sz ++ r) = none :=
      ciLit_short _ _ _ (by rw [hl]; decide) (by rw [h]; decide)
    have c2 : ciLit ("DQWORD".toList) (sz ++ r) = none :=
      ciLit_mismatch _ _ _ (by rw [hl]; decide)
        (by intro x hx; rw [h] at hx; injection hx with h1 _; exact absurd h1 (by decide))
    have c3 : ciLit ("DWORD".toList) (sz ++ r) = none :=
      ciLit_mismatch _ _ _ (by rw [hl]; decide)
        (by intro x hx; rw [h] at hx; injection hx with h1 _; exact absurd h1 (by decide))
    have c4 : ciLit ("QWORD".toList) (sz ++ r) = none :=
      ciLit_mismatch _ _ _ (by rw [hl]; decide)
        (by intro x hx; rw [h] at hx; injection hx with h1 _; exact absurd h1 (by decide))
    have c5 : ciLit ("WORD".toList) (sz ++ r) = some (sz, r) :=
      ciLit_exact _ _ _ (by rw [h]; rfl) (by rw [hl]; rfl)
    simp only [sizeKw, c1, c2, c3, c4, c5]
  · have hl : sz.length = 5 := by rw [← hlen, h]; rfl
    have c1 : ciLit ("BYTE".toList) (sz ++ r) = none :=
      ciLit_short _ _ _ (by rw [hl]; decide) (by rw [h]; decide)
    have c2 : ciLit ("DQWORD".toList) (sz ++ r) = none :=
      ciLit_mismatch _ _ _ (by rw [hl]; decide)
        (by intro x hx; rw [h] at hx
            injection hx with h1 hx2; injection hx2 with h2 _; exact absurd h2 (by decide))
    have c3 : ciLit ("DWORD".toList) (sz ++ r) = some (sz, r) :=
      ciLit_exact _ _ _ (by rw [h]; rfl) (by rw [hl]; rfl)
    simp only [sizeKw, c1, c2, c3]
  · have hl : sz.length = 5 := by rw [← hlen, h]; rfl
    have c1 : ciLit ("BYTE".toList) (sz ++ r) = none :=
      ciLit_short _ _ _ (by rw [hl]; decide) (by rw [h]; decide)
    have c2 : ciLit ("DQWORD".toList) (sz ++ r) = none :=
      ciLit_mismatch _ _ _ (by rw [hl]; decide)
        (by intro x hx; rw [h] at hx; injection hx with h1 _; exact absurd h1 (by decide))
    have c3 : ciLit ("DWORD".toList) (sz ++ r) = none :=
      ciLit_short _ _ _ (by rw [hl]; decide) (by rw [h]; decide)
    have c4 : ciLit ("QWORD".toList) (sz ++ r) = some (sz, r) :=
      ciLit_exact _ _ _ (by rw [h]; rfl) (by rw [hl]; rfl)
    simp only [sizeKw, c1, c2, c3, c4]

theorem sz_shape (sz : Str)
    (hsz : lowerStr sz = "byte".toList ∨ lowerStr sz = "word".toList ∨
           lowerStr sz = "dword".toList ∨ lowerStr sz = "qword".toList) :
    ∃ s0 sz', sz = s0 :: sz' ∧ wsChar s0 = false ∧ (∀ d ∈ sz, d ≠ ';') := by
  cases sz with
  | nil => exfalso; rcases hsz with h | h | h | h <;> exact absurd h (by decide)
  | cons s0 sz' =>
    refine ⟨s0, sz', rfl, ?_, ?_⟩
    · cases hw : wsChar s0
      · rfl
      · exfalso
        have hsp : s0 = ' ' ∨ s0 = '\t' := by simpa [wsChar] using hw
        rcases hsp with rfl | rfl <;> rcases hsz with h | h | h | h <;>
          (simp only [lowerStr, List.map_cons] at h; injection h with h1 _;
           exact absurd h1 (by decide))
    · intro d hd hdeq
      subst hdeq
      have hmem : Char.toLower ';' ∈ lowerStr (s0 :: sz') := List.mem_map_of_mem _ hd
      rcases hsz with h | h | h | h <;> rw [h] at hmem <;> exact absurd hmem (by decide)

theorem rfind_aux_lt (s : Str) (w : Nat) (l : List Nat) (acc : Option Nat)
    (hacc : ∀ q, acc = some q → q < w) (hl : ∀ i ∈ l, i < w) :
    ∀ q, l.foldl (fun acc i => if s.get? i == some ' ' then some i else acc) acc = some q →
      q < w := by
  induction l generalizing acc with
  | nil => exact fun q hq => hacc q hq
  | cons i l ih =>
    intro q hq
    simp only [List.foldl_cons] at hq
    refine ih _ ?_ (fun j hj => hl j (List.mem_cons_of_mem _ hj)) q hq
    intro r hr
    by_cases hsp : (s.get? i == some ' ') = true
    · rw [if_pos hsp] at hr
      have := Option.some.inj hr
      subst this
      exact hl i (List.mem_cons_self _ _)
    · rw [if_neg hsp] at hr
      exact hacc r hr

theorem rfindSpace_lt (s : Str) (w : Nat) (p : Nat) (h : rfindSpace s w = some p) : p < w := by
  refine rfind_aux_lt s w _ none (by simp) ?_ p h
  intro i hi
  have := List.mem_range.mp hi
  omega

theorem rfind_aux_none (s : Str) (l : List Nat) (acc : Option Nat)
    (h : l.foldl (fun acc i => if s.get? i == some ' ' then some i else acc) acc = none) :
    acc = none ∧ ∀ i ∈ l, s.get? i ≠ some ' ' := by
  induction l generalizing acc with
  | nil => exact ⟨h, by simp⟩
  | cons i l ih =>
    simp only [List.foldl_cons] at h
    have h' := ih _ h
    by_cases hsp : (s.get? i == some ' ') = true
    · rw [if_pos hsp] at h'
      exact absurd h'.1 (by simp)
    · rw [if_neg hsp] at h'
      refine ⟨h'.1, ?_⟩
      intro j hj
      rcases List.mem_cons.mp hj with rfl | hj
      · intro hc
        exact hsp (by rw [hc]; rfl)
      · exact h'.2 j hj

theorem rfindSpace_none (s : Str) (w : Nat) (h : rfindSpace s w = none) :
    ∀ i < min w s.length, s.get? i ≠ some ' ' := by
  intro i hi
  exact (rfind_aux_none s _ none h).2 i (List.mem_range.mpr hi)

/-- C8 (amended): every line of the shape `label  size  initializer-list` —
where the label is a letter or underscore followed by *one or more* word
characters, the size keyword is one of BYTE/WORD/DWORD/QWORD case-insensitively,
the initializer list is a nonempty sequence of `[0-9a-zA-Z,()?]` characters
with single spaces between them, and the line is not captured by the earlier
directive rule (no `INCLUDE` prefix, no `END` at offset 2) — is classified as
a Data token carrying exactly that label, that size keyword (original case)
and that initializer list, with no trailing comment. -/
theorem C8_data_line_classified (c : Char) (rest sz val : Str)
    (hc : identFirst c = true)
    (hrest_ne : rest ≠ [])
    (hrest : ∀ d ∈ rest, wordChar d = true)
    (hsz : lowerStr sz = "byte".toList ∨ lowerStr sz = "word".toList ∨
           lowerStr sz = "dword".toList ∨ lowerStr sz = "qword".toList)
    (hval : goodInit val = true)
    (hincl : ("INCLUDE".toList).isPrefixOf (c :: (rest ++ (' ' :: (sz ++ (' ' :: val))))) = false)
    (hend : ("END".toList).isPrefixOf ((c :: (rest ++ (' ' :: (sz ++ (' ' :: val))))).drop 2) = false) :
    classify (c :: (rest ++ (' ' :: (sz ++ (' ' :: val))))) =
      .ok { type := .data, label := some (c :: rest), directive := some sz,
            value := some val, comment := some none } := by
  obtain ⟨s0, sz', hszeq, hs0ws, hsz_ne_semi⟩ := sz_shape sz hsz
  obtain ⟨v0, val', hvaleq, hv0⟩ := goodInit_head val hval
  -- character-level facts
  have hc_ne_semi : c ≠ ';' := by intro hh; subst hh; exact absurd hc (by decide)
  have hc_ne_dot : c ≠ '.' := by intro hh; subst hh; exact absurd hc (by decide)
  have hval_ne_semi : ∀ d ∈ val, d ≠ ';' := by
    intro d hd hdeq
    subst hdeq
    rcases goodInit_mem val.length val le_rfl hval ';' hd with h1 | h1
    · exact absurd h1 (by decide)
    · exact absurd h1 (by decide)
  have hrest_ne_semi : ∀ d ∈ rest, d ≠ ';' := by
    intro d hd hdeq
    subst hdeq
    exact absurd (hrest ';' hd) (by decide)
  have hnosemi : ∀ x ∈ c :: (rest ++ (' ' :: (sz ++ (' ' :: val)))), x ≠ ';' := by
    intro x hx
    rcases List.mem_cons.mp hx with rfl | hx1
    · exact hc_ne_semi
    · rcases List.mem_append.mp hx1 with hx2 | hx2
      · exact hrest_ne_semi x hx2
      · rcases List.mem_cons.mp hx2 with rfl | hx3
        · intro hh; exact absurd hh (by decide)
        · rcases List.mem_append.mp hx3 with hx4 | hx4
          · exact hsz_ne_semi x hx4
          · rcases List.mem_cons.mp hx4 with rfl | hx5
            · intro hh; exact absurd hh (by decide)
            · exact hval_ne_semi x hx5
  have hlen1 : 1 ≤ rest.length := by
    cases rest with
    | nil => exact absurd rfl hrest_ne
    | cons a l => simp
  have htail : (rest ++ (' ' :: (sz ++ (' ' :: val)))).takeWhile wordChar = rest := by
    rw [takeWhile_all_append _ _ _ hrest, takeWhile_cons_neg _ _ _ (by decide)]
    simp
  have hdrop1 : (rest ++ (' ' :: (sz ++ (' ' :: val)))).drop rest.length
      = ' ' :: (sz ++ (' ' :: val)) := List.drop_left rest _
  have htw1 : (' ' :: (sz ++ (' ' :: val))).takeWhile wsChar = [' '] := by
    rw [hszeq, List.cons_append, List.takeWhile_cons, List.takeWhile_cons, hs0ws]
    simp [wsChar]
  have hsk : sizeKw (sz ++ (' ' :: val)) = some (sz, ' ' :: val) := sizeKw_of_kw _ _ hsz
  have htw2 : (' ' :: val).takeWhile wsChar = [' '] := by
    rw [hvaleq, List.takeWhile_cons, List.takeWhile_cons, dataInitChar_not_ws v0 hv0]
    simp [wsChar]
  have hmunch : dataMunch val = (val, []) := goodInit_munch _ _ le_rfl hval
  have hdata : matchData (c :: (rest ++ (' ' :: (sz ++ (' ' :: val))))) =
      some (c :: rest, sz, val) := by
    simp only [matchData, hc, if_true, htail, hdrop1, htw1]
    rw [if_pos hlen1, if_pos (by decide : ([' '] : Str).length ≠ 0)]
    have e1 : List.drop ([' '] : Str).length (' ' :: (sz ++ ' ' :: val)) = sz ++ ' ' :: val := rfl
    rw [e1]
    simp only [hsk]
    rw [htw2, if_pos (by decide : ([' '] : Str).length ≠ 0)]
    have e2 : List.drop ([' '] : Str).length (' ' :: val) = val := rfl
    rw [e2]
    rw [hmunch, hvaleq]
  have hm : headerMatch (c :: (rest ++ (' ' :: (sz ++ (' ' :: val))))) = false :=
    headerMatch_of_no_semi _ hnosemi
  have hcomment : lineComment (c :: (rest ++ (' ' :: (sz ++ (' ' :: val))))) = none :=
    lineComment_of_no_semi _ hnosemi
  have hext : ((";  ".toList).isPrefixOf (c :: (rest ++ (' ' :: (sz ++ (' ' :: val)))))) = false := by
    have hb : (';' == c) = false := by
      cases hbc : (';' == c)
      · rfl
      · exact absurd (by simpa using hbc : ';' = c) (fun hh => hc_ne_semi hh.symm)
    simp [List.isPrefixOf, hb]
  simp only [classify, List.length_cons, hext, hm, hc_ne_semi, hc_ne_dot, hincl, hend, hdata,
    goodInit_strip val hval, hcomment, List.headD_cons]
  simp

/-! ## Claims -/

/-- C1: the claim says every line classified as Error is emitted unchanged in
the output (with a diagnostic, without halting).  The diagnostic is produced,
but the rendering loop has no branch for Error tokens: the line `!!!` is
dropped from the output, and when the Error line is the first token the run
crashes with an `IndexError` (from `parsed_tokens[-1]` on an empty list). -/
theorem C1_error_line_not_emitted :
    run defaultConfig ["mov ax".toList, "!!!".toList] =
      .ok { output := ["mov   ax".toList], stdout := [],
            diags := [(2, "Unrecognized Token", "!!!".toList)] } ∧
    run defaultConfig ["!!!".toList] = .error "IndexError: list index out of range" :=
  ⟨by decide, by decide⟩

/-- C2 counterexample: the claim quantifies over every configuration, but the
merge on source line 186 is guarded by `fix_file_width`.  With
`fix_file_width = false` the extension token is not merged and survives
aggregation, so it does reach the Renderer (which then silently drops it). -/
theorem C2_counterexample :
    (aggregate { defaultConfig with fix_file_width := false }
        [{ type := TType.comment, subtype := some TSub.full_line, value := some "hello".toList },
         { type := TType.comment, subtype := some TSub.extension,
           value := some "world".toList }]).map (fun r => r.1) =
      .ok [{ type := TType.comment, subtype := some TSub.full_line,
             value := some "hello".toList },
           { type := TType.comment, subtype := some TSub.extension,
             value := some "world".toList }] ∧
    run { defaultConfig with fix_file_width := false } ["; hello".toList, ";  world".toList] =
      .ok { output := ["; hello".toList], stdout := [], diags := [] } :=
  ⟨by decide, by decide⟩

/-- C2 (amended): when `fix_file_width` is true, a comment token immediately
followed by a single CommentExtension token absorbs it — the merged comment
text is the space-joined pair in original order, the extension is marked
removed, and the token list handed to the Renderer holds only the merged
comment. -/
theorem C2_single_extension_merged (cfg : Config) (a b : Str)
    (h : cfg.fix_file_width = true) :
    (aggregate cfg
        [{ type := TType.comment, subtype := some TSub.full_line, value := some a },
         { type := TType.comment, subtype := some TSub.extension, value := some b }]).map
      (fun r => r.1) =
      .ok [{ type := TType.comment, subtype := some TSub.full_line,
             value := some (a ++ ' ' :: b) }] := by
  obtain ⟨i1, i2, i3, i4, i5, i6, i7, i8, i9, i10, i11, i12, i13, i14, i15, i16, i17, i18, i19,
    i20⟩ := cfg
  have h' : i3 = true := h
  subst h'
  cases i6 <;> cases i7 <;> cases i16 <;> rfl

theorem C2_witness :
    (aggregate defaultConfig
        [{ type := TType.comment, subtype := some TSub.full_line, value := some "hello".toList },
         { type := TType.comment, subtype := some TSub.extension,
           value := some "world".toList }]).map (fun r => r.1) =
      .ok [{ type := TType.comment, subtype := some TSub.full_line,
             value := some ("hello".toList ++ ' ' :: "world".toList) }] :=
  C2_single_extension_merged defaultConfig "hello".toList "world".toList rfl

/-- C3: the claim says every run of N ≥ 2 consecutive blank lines collapses to
exactly one blank line when `fix_blank_lines` is true.  The removal marking
consults the already-retyped predecessor (`tokens[i-1]['type']` is
`'to_remove'` for a blank just marked), so removals happen pairwise and three
blank lines collapse to two, not one. -/
theorem C3_three_blanks_collapse_to_two :
    run defaultConfig [[], [], []] =
      .ok { output := [[], []], stdout := [], diags := [] } := by
  decide

/-- C4 counterexample: with `file_width = 10`, the header-comment continuation
line written to the output sink is 19 columns long even though spaces (break
points) exist within its first 10 columns — the claimed width invariant fails
for continuation lines. -/
theorem C4_counterexample :
    run { defaultConfig with file_width := 10 } ["; Date: aa bb cc dd".toList] =
      .ok { output := ["; Date:".toList, ";       aa bb cc dd".toList], stdout := [],
            diags := [] } ∧
    (10 < (";       aa bb cc dd".toList).length ∧
      ' ' ∈ (";       aa bb cc dd".toList).take 10) :=
  ⟨by decide, by decide⟩

/-- C4 (amended): with `fix_file_width = true`, every line the Emitter writes
to the output sink for a *structured* rendered line respects the width bound:
it is at most `file_width` columns, or it has no space at or before the width
limit (no break point; it is then emitted with its last character cut).  The
wrap continuation lines (sent to stdout) and the plain continuation lines from
header-comment wrapping are exempt. -/
theorem C4_structured_sink_width (cfg : Config) (maxS maxDS : Nat) (s : Str)
    (cmt : Option Str) (d : Bool) (h : cfg.fix_file_width = true) :
    ∀ l ∈ (emitOne cfg maxS maxDS (Parsed.structured s cmt d)).1,
      l.length ≤ cfg.file_width ∨ ∀ i < cfg.file_width, l.get? i ≠ some ' ' := by
  intro l hl
  simp only [emitOne] at hl
  by_cases hle : (outputString cfg maxS maxDS s cmt d).length ≤ cfg.file_width
  · rw [if_pos (Or.inr hle)] at hl
    simp only [List.mem_singleton] at hl
    subst hl
    exact Or.inl hle
  · have hcond : ¬(cfg.fix_file_width = false ∨
        (outputString cfg maxS maxDS s cmt d).length ≤ cfg.file_width) := by
      rintro (hf | hl2)
      · rw [h] at hf; cases hf
      · exact hle hl2
    rw [if_neg hcond] at hl
    cases hr : rfindSpace (outputString cfg maxS maxDS s cmt d) cfg.file_width with
    | some p =>
      rw [hr] at hl
      simp only [List.mem_singleton] at hl
      subst hl
      left
      have hp := rfindSpace_lt _ _ _ hr
      have hlen : (List.take p (outputString cfg maxS maxDS s cmt d)).length ≤ p := by
        simp [List.length_take]
      omega
    | none =>
      rw [hr] at hl
      simp only [List.mem_singleton] at hl
      subst hl
      right
      intro i hi hc
      by_cases hil : i < (outputString cfg maxS maxDS s cmt d).length - 1
      · have hget : (List.take ((outputString cfg maxS maxDS s cmt d).length - 1)
            (outputString cfg maxS maxDS s cmt d)).get? i =
            (outputString cfg maxS maxDS s cmt d).get? i := by
          rw [List.get?_take hil]
        rw [hget] at hc
        exact rfindSpace_none _ cfg.file_width hr i (by omega) hc
      · have hnone : (List.take ((outputString cfg maxS maxDS s cmt d).length - 1)
            (outputString cfg maxS maxDS s cmt d)).get? i = none := by
          apply List.get?_eq_none.mpr
          simp only [List.length_take]
          omega
        rw [hnone] at hc
        exact Option.noConfusion hc

theorem C4_witness :
    ("hello world".toList.length ≤ defaultConfig.file_width ∨
      ∀ i < defaultConfig.file_width, ("hello world".toList).get? i ≠ some ' ') :=
  C4_structured_sink_width defaultConfig 0 0 "hello world".toList none false rfl
    "hello world".toList (by decide)

/-- C5: the claim says an over-long line without a break point is emitted
unwrapped and unmodified.  Instead `rfind` returns `-1`, so the sink receives
`output_string[:-1]` — the line with its final character cut off — while the
entire line is printed to stdout behind a comment-marker prefix. -/
theorem C5_no_break_point_truncates :
    run { defaultConfig with file_width := 5 } [".abcdefghij".toList] =
      .ok { output := [".ABCDEFGHI".toList], stdout := [";   .ABCDEFGHIJ".toList],
            diags := [] } := by
  decide

/-- C6: the claim says the depth counter is incremented only after the PROC
line is rendered, making the body one level deeper than both boundary lines.
In the code the counter changes before the indentation prefix is applied to
the PROC line itself, so the PROC line is indented one level — at body depth —
while the ENDP line stays at the outer depth. -/
theorem C6_proc_line_indented_like_body :
    run defaultConfig ["main PROC".toList, "mov ax".toList, "main ENDP".toList] =
      .ok { output := ["  main PROC".toList, "  mov   ax".toList, "main ENDP".toList],
            stdout := [], diags := [] } := by
  decide

/-- C7: the claim says a line starting with the keyword `END` is classified as
a Directive.  `line.startswith('END', re.IGNORECASE)` passes the flag (integer
value 2) as the *start offset*, so the code looks for the literal `END` at
index 2: the line `END` is classified as an Instruction, while `ppEND` is
classified as a Directive. -/
theorem C7_end_keyword_not_directive :
    classify "END".toList =
      .ok { type := .instruction, mnemonic := some "END".toList, operands := some none,
            comment := some none } ∧
    classify "ppEND".toList =
      .ok { type := .directive, value := some "ppEND".toList, comment := some none } :=
  ⟨by decide, by decide⟩

/-- C8 counterexample: a single-character label fits the claimed shape (a
letter followed by zero or more word characters), but the label pattern in the
code requires at least one more character (`[a-zA-Z_][a-zA-Z0-9_]+`): the line
`x BYTE 1` is classified as an Instruction, not as Data. -/
theorem C8_counterexample :
    classify "x BYTE 1".toList =
      .ok { type := .instruction, mnemonic := some "x".toList,
            operands := some (some "BYTE 1".toList), comment := some none } := by
  decide

theorem C8_witness :
    classify ('c' :: ("ount".toList ++ (' ' :: ("DWORD".toList ++ (' ' :: "0".toList))))) =
      .ok { type := .data, label := some ('c' :: "ount".toList),
            directive := some "DWORD".toList, value := some "0".toList,
            comment := some none } :=
  C8_data_line_classified 'c' "ount".toList "DWORD".toList "0".toList (by decide) (by decide)
    (by decide) (by decide) (by decide) (by decide) (by decide)

/-- C9: the claim says re-running the full transformation on its own output is
byte-identical.  Because blank-line runs collapse pairwise (see C3), four
blank lines format to two blank lines, and formatting that output again yields
one blank line — the two outputs differ. -/
theorem C9_not_idempotent :
    run defaultConfig [[], [], [], []] =
      .ok { output := [[], []], stdout := [], diags := [] } ∧
    run defaultConfig [[], []] = .ok { output := [[]], stdout := [], diags := [] } :=
  ⟨by decide, by decide⟩

/-- C10: the emission loop contributes exactly one line per rendered line to
the output sink (`emitPrimary`; for an over-long structured line with a break
point this is the prefix up to the last space before the limit), while every
wrap continuation line is produced by the bare `print` on source line 317 and
goes to standard output (`emitCont`) — the selected output sink never receives
wrap continuation lines. -/
theorem C10_sink_never_gets_continuations (cfg : Config) (maxS maxDS : Nat)
    (ps : List Parsed) :
    emitAll cfg maxS maxDS ps =
      (ps.map (emitPrimary cfg maxS maxDS), ps.filterMap (emitCont cfg maxS maxDS)) := by
  induction ps with
  | nil => rfl
  | cons p ps ih =>
    simp only [emitAll, ih, emitOne_split, List.map_cons, List.filterMap_cons]
    cases hcc : emitCont cfg maxS maxDS p <;> simp [hcc]

end AsmFixer
